import Mathlib

/-!
Verification of the LAIK partitioned-container core against its
natural-language specification.

The development shallowly embeds the relevant parts of the C sources:

* the index/slice traversal helpers of the TCP2 point-to-point backend
  (`next_lex`, `istr`, slice sizes);
* the TCP2 command handlers (`got_data`, `got_cmd`), the credit-based
  send/receive path (`send_slice`, `recv_slice`), and connection
  management (`ensure_conn`, the end-of-file branch of `got_bytes`);
* the early data layer (`copyMap`, `initMap`, `laik_set_partitioning`);
* the MPI backend's double-sweep transfer schedule and the transition
  plan buffer bookkeeping (`laik_transplan_appendBuf`).

Machine integers are modelled as `Int` (with explicit wrap-around where
the C formats a value as unsigned), element values of the data layer as
exact rationals extended with signed infinities, byte memories as
functions `Int → Int`, and fallible code (assertion failures, panics)
as `Option`/explicit result constructors.
-/

/-! ## Index and slice geometry (TCP2 backend, `Laik_Index` / `Laik_Slice`) -/

/-- `Laik_Index`: the three `int64_t` coordinates `idx->i[0..2]`. -/
structure Laik_Index where
  i0 : Int
  i1 : Int
  i2 : Int
deriving Repr, DecidableEq

/-- A `Laik_Slice` together with the dimension count of its space
(`slc->space->dims`); bounds are the C fields `from` and `to`
(named `from_`/`to_` because `from` is reserved in Lean). -/
structure Laik_Slice where
  dims : Nat
  from_ : Laik_Index
  to_ : Laik_Index
deriving Repr, DecidableEq

/-- `next_lex` from the TCP2 backend (copied there from `src/layout.c`):
advance `idx` in lexicographic traversal order of `slc` (axis 0 fastest),
returning `true` while the traversal continues.  The C mutates `idx` in
place; the model returns the pair (result, mutated index). -/
def next_lex (slc : Laik_Slice) (idx : Laik_Index) : Bool × Laik_Index :=
  let a0 := idx.i0 + 1
  if a0 < slc.to_.i0 then (true, { idx with i0 := a0 })
  else if slc.dims = 1 then (false, { idx with i0 := a0 })
  else
    let a1 := idx.i1 + 1
    if a1 < slc.to_.i1 then (true, { idx with i0 := slc.from_.i0, i1 := a1 })
    else if slc.dims = 2 then (false, { idx with i0 := slc.from_.i0, i1 := a1 })
    else
      let a2 := idx.i2 + 1
      if a2 < slc.to_.i2 then
        (true, { idx with i0 := slc.from_.i0, i1 := slc.from_.i1, i2 := a2 })
      else (false, { idx with i0 := slc.from_.i0, i1 := slc.from_.i1, i2 := a2 })

/-- Modelled from the spec: `laik_slice_size` (the slice algebra is an
external collaborator, §2.A; the spec writes `|slc|` for the element
count of a slice, the product over the axes of `to - from`). -/
def laik_slice_size (slc : Laik_Slice) : Int :=
  match slc.dims with
  | 1 => slc.to_.i0 - slc.from_.i0
  | 2 => (slc.to_.i0 - slc.from_.i0) * (slc.to_.i1 - slc.from_.i1)
  | 3 => (slc.to_.i0 - slc.from_.i0) * (slc.to_.i1 - slc.from_.i1) *
         (slc.to_.i2 - slc.from_.i2)
  | _ => 0

/-- Axis-0 extent of a slice, as a natural number. -/
def sz0 (slc : Laik_Slice) : Nat := (slc.to_.i0 - slc.from_.i0).toNat

/-- Axis-1 extent, padded to 1 for 1-dimensional slices. -/
def sz1 (slc : Laik_Slice) : Nat :=
  if 2 ≤ slc.dims then (slc.to_.i1 - slc.from_.i1).toNat else 1

/-- Axis-2 extent, padded to 1 below dimension 3. -/
def sz2 (slc : Laik_Slice) : Nat :=
  if slc.dims = 3 then (slc.to_.i2 - slc.from_.i2).toNat else 1

/-- Element count of a slice as a natural number. -/
def usize (slc : Laik_Slice) : Nat := sz0 slc * sz1 slc * sz2 slc

/-- The `k`-th index visited by the lexicographic traversal of `slc`
(mixed-radix decoding of `k`). -/
def unrank (slc : Laik_Slice) (k : Nat) : Laik_Index :=
  { i0 := slc.from_.i0 + ((k % sz0 slc : Nat) : Int)
  , i1 := slc.from_.i1 + ((k / sz0 slc % sz1 slc : Nat) : Int)
  , i2 := slc.from_.i2 + ((k / (sz0 slc * sz1 slc) : Nat) : Int) }

/-- Well-formedness of a slice as produced by the planner: a supported
dimension count and a non-empty extent on every used axis. -/
def slcOK (slc : Laik_Slice) : Prop :=
  (slc.dims = 1 ∨ slc.dims = 2 ∨ slc.dims = 3) ∧
  slc.from_.i0 < slc.to_.i0 ∧
  (2 ≤ slc.dims → slc.from_.i1 < slc.to_.i1) ∧
  (slc.dims = 3 → slc.from_.i2 < slc.to_.i2)

instance (slc : Laik_Slice) : Decidable (slcOK slc) := by
  unfold slcOK; infer_instance

/-- The mutated index value left behind by the `next_lex` call that
returns `false` (traversal exhausted). -/
def exhaustIdx (slc : Laik_Slice) : Laik_Index :=
  match slc.dims with
  | 1 => ⟨slc.to_.i0, slc.from_.i1, slc.from_.i2⟩
  | 2 => ⟨slc.from_.i0, slc.to_.i1, slc.from_.i2⟩
  | _ => ⟨slc.from_.i0, slc.from_.i1, slc.to_.i2⟩

/-- The receive index `ridx` after `n` accepted elements: `slc.from`
advanced `n` times by `next_lex` (taking the mutated index also when
the traversal reports exhaustion, as the C does). -/
def lexIter (slc : Laik_Slice) : Nat → Laik_Index
  | 0 => slc.from_
  | n + 1 => (next_lex slc (lexIter slc n)).2

/-- Strict lexicographic order on indices as traversed by `next_lex`
(axis 0 fastest, so higher axes are more significant). -/
def lexLt (dims : Nat) (a b : Laik_Index) : Prop :=
  if dims = 1 then a.i0 < b.i0
  else if dims = 2 then a.i1 < b.i1 ∨ (a.i1 = b.i1 ∧ a.i0 < b.i0)
  else a.i2 < b.i2 ∨ (a.i2 = b.i2 ∧ (a.i1 < b.i1 ∨ (a.i1 = b.i1 ∧ a.i0 < b.i0)))

/-! ## TCP2 backend: peers, messages, `got_data` -/

/-- `Laik_ReductionOperation` (the cases used by the backend). -/
inductive Laik_ReductionOperation where
  | ro_None
  | ro_Sum
  | ro_Prod
  | ro_Min
  | ro_Max
deriving Repr, DecidableEq

/-- The view of a `Laik_Mapping` used by the TCP2 data path: base
address `m->start`, the layout's `offset` capability applied to
`m->layoutSection`, the element size `m->data->elemsize`, and the
type's element-wise `reduce` function (`0`/`none` for plain-old-data
types).  The reduce function maps (existing bytes, incoming bytes, op)
to the stored bytes. -/
structure Laik_Mapping_tcp2 where
  start : Int
  layoutOffset : Laik_Index → Int
  elemsize : Int
  reduce : Option (List Int → List Int → Laik_ReductionOperation → List Int)

/-- The TCP2 `Peer` record.  Strings are `List Char`, nullable C
pointers are `Option`. -/
structure Peer where
  fd : Int
  port : Int
  host : Option (List Char)
  location : Option (List Char)
  rcount : Int
  relemsize : Int
  roff : Int
  rmap : Option Laik_Mapping_tcp2
  rslc : Laik_Slice
  ridx : Laik_Index
  rro : Laik_ReductionOperation
  scount : Int
  selemsize : Int

/-- Byte memory: address to byte value. -/
def Mem : Type := Int → Int

/-- Read `len` bytes starting at `ptr`. -/
def readBytes (mem : Mem) (ptr : Int) (len : Int) : List Int :=
  (List.range len.toNat).map (fun j => mem (ptr + j))

/-- Write the byte list `bs` starting at `ptr` (the `memcpy` in
`got_data`). -/
def writeBytes (mem : Mem) (ptr : Int) (bs : List Int) : Mem :=
  fun a => if ptr ≤ a ∧ a < ptr + bs.length then bs.getD (a - ptr).toNat 0 else mem a

/-- Drop leading blanks, as the `scanf` family and the explicit
`while(msg[i] == ' ') i++;` loops do (a line never contains a newline,
and `process_rbuf` has already turned CR into a blank). -/
def skipSpaces (cs : List Char) : List Char := cs.dropWhile (fun c => c = ' ')

/-- One `%s` conversion: skip blanks, then take the maximal non-blank
run (the `%20s`/`%50s` width caps are never reached by the fixed verbs
and are not modelled).  Returns the token and the rest. -/
def takeWord (cs : List Char) : List Char × List Char :=
  let cs2 := skipSpaces cs
  (cs2.takeWhile (fun c => c ≠ ' '), cs2.dropWhile (fun c => c ≠ ' '))

/-- Decimal digits to a natural number. -/
def digitsToNat (ds : List Char) : Nat :=
  ds.foldl (fun a c => 10 * a + (c.toNat - '0'.toNat)) 0

/-- One `%d` conversion: skip blanks, optional sign, at least one
digit; fails (conversion count not increased) otherwise. -/
def parseIntFrom (cs : List Char) : Option (Int × List Char) :=
  let cs2 := skipSpaces cs
  match cs2 with
  | '-' :: rest =>
      let ds := rest.takeWhile Char.isDigit
      if ds = [] then none
      else some (-(digitsToNat ds : Int), rest.dropWhile Char.isDigit)
  | _ =>
      let ds := cs2.takeWhile Char.isDigit
      if ds = [] then none
      else some ((digitsToNat ds : Int), cs2.dropWhile Char.isDigit)

/-- The `sscanf(msg, "%20s %d %n", cmd, &len, &i)` step of `got_data`:
the verb token, the `<len>` field, and the tail of the line at the
recorded `%n` position (first non-blank after the length). -/
def data_cmd_parse (msg : List Char) : Option (Int × List Char) :=
  let w := takeWord msg
  (parseIntFrom w.2).map (fun x => (x.1, skipSpaces x.2))

/-- `sprintf("%d", x)` for the `int` fields. -/
def intStr (x : Int) : List Char := (toString x).toList

/-- `sprintf("%llu", x)` applied to an `int64_t` index component: the
value printed is the two's-complement reinterpretation mod 2^64. -/
def ullStr (x : Int) : List Char := (toString (x % (2 : Int) ^ 64).toNat).toList

/-- `istr`: index as `i0`, `i0/i1` or `i0/i1/i2` (for other dimension
counts the C leaves the static buffer unchanged; modelled as empty). -/
def istr (dims : Nat) (idx : Laik_Index) : List Char :=
  if dims = 1 then ullStr idx.i0
  else if dims = 2 then ullStr idx.i0 ++ '/' :: ullStr idx.i1
  else if dims = 3 then ullStr idx.i0 ++ '/' :: ullStr idx.i1 ++ '/' :: ullStr idx.i2
  else []

/-- The expected position tag `pstr = "(<roff>:<istr>)"` built by
`got_data` for its `strncmp` check. -/
def posStr (roff : Int) (dims : Nat) (idx : Laik_Index) : List Char :=
  '(' :: intStr roff ++ ':' :: istr dims idx ++ [')']

/-- If the payload starts with `(`, the position tag must match
exactly (`assert(strncmp(msg+i, pstr, s) == 0)`, an assertion failure
otherwise); the tag and following blanks are consumed. -/
def stripTag (pstr : List Char) (payload : List Char) : Option (List Char) :=
  match payload with
  | '(' :: _ =>
      if payload.take pstr.length = pstr
      then some ((payload.drop pstr.length).dropWhile (fun c => c = ' '))
      else none
  | _ => some payload

/-- `v = 16 * v + ((c > '9') ? c - 'a' + 10 : c - '0')`. -/
def hexval (c : Char) : Int :=
  if '9' < c then (c.toNat : Int) - ('a'.toNat : Int) + 10
  else (c.toNat : Int) - ('0'.toNat : Int)

/-- The hex-byte parsing loop of `got_data`, including its assertions:
on a blank or at end of line the accumulated value is stored
(`data_in[l++] = v`, truncated to a byte as the C `char` store does)
after `assert(l < len)`; the loop breaks at end of line or once `len`
bytes are stored (remaining characters are ignored); every other
character must satisfy `assert(c >= '0' && c <= 'f')` and
`assert(c <= '9' || c >= 'a')`; after the loop, `assert(l == len)`.
`none` models an assertion failure. -/
def parse_hex (len : Int) : List Char → List Int → Int → Option (List Int)
  | [], acc, v =>
      if (acc.length : Int) < len then
        if ((acc.length : Int) + 1 = len) then some (acc ++ [v % 256]) else none
      else none
  | c :: cs, acc, v =>
      if c = ' ' then
        if (acc.length : Int) < len then
          if ((acc.length : Int) + 1 = len) then some (acc ++ [v % 256])
          else parse_hex len cs (acc ++ [v % 256]) 0
        else none
      else if ('0' ≤ c ∧ c ≤ 'f') ∧ (c ≤ '9' ∨ 'a' ≤ c) then
        parse_hex len cs acc (16 * v + hexval c)
      else none

/-- Result of `got_data`.  `panicked`: the `sscanf` failed and the
command was logged at `LAIK_LL_Panic` level (modelled from the spec,
§7: a Panic-level event-loop error terminates the process).
`assertFailed`: an `assert` fired.  `done warned p mem exit`: the
handler returned, with `warned = true` on the no-credit warning path
(command dropped) and `warned = false` on acceptance. -/
inductive GDResult where
  | panicked
  | assertFailed
  | done (warned : Bool) (p : Peer) (mem : Mem) (exit : Bool)

/-- `got_data(d, lid, msg)`: the TCP2 `data` command handler, acting on
the sender's peer record `p = d->peer[lid]`, the mapped memory, and the
event-loop exit flag `d->exit`. -/
def got_data (p : Peer) (mem : Mem) (ex : Bool) (msg : List Char) : GDResult :=
  match data_cmd_parse msg with
  | none => .panicked
  | some (len, payload) =>
    if p.rcount = 0 ∨ p.rcount = p.roff then .done true p mem ex
    else if p.relemsize ≠ len then .assertFailed
    else match p.rmap with
    | none => .assertFailed
    | some m =>
      let off := m.layoutOffset p.ridx
      let idxPtr := m.start + off * p.relemsize
      let pstr := posStr p.roff p.rslc.dims p.ridx
      match stripTag pstr payload with
      | none => .assertFailed
      | some payload2 =>
        if ¬ (len < 100) then .assertFailed
        else match parse_hex len payload2 [] 0 with
        | none => .assertFailed
        | some data_in =>
          let stored : Option (List Int) :=
            if p.rro = .ro_None then some data_in
            else match m.reduce with
              | none => none
              | some f => some (f (readBytes mem idxPtr len) data_in p.rro)
          match stored with
          | none => .assertFailed
          | some bs =>
            let mem2 := writeBytes mem idxPtr bs
            let roff2 := p.roff + 1
            let step := next_lex p.rslc p.ridx
            if step.1 ≠ decide (roff2 < p.rcount) then .assertFailed
            else
              .done false { p with roff := roff2, ridx := step.2 } mem2
                (if roff2 = p.rcount then true else ex)

/-! ## TCP2 backend: `got_cmd` outcome classification -/

/-- Outcome of dispatching one complete received line in `got_cmd`.
`handled`: the command was processed (state updates and/or replies).
`warnDrop`: a `laik_log(LAIK_LL_Warning, ...)` followed by `return`:
the command is dropped, no state is touched, the connection stays open.
`panicLog`: a `laik_log(LAIK_LL_Panic, ...)`: modelled from the spec
(§7) as terminating the process.  `assertFail`: an assertion fired.
`killExit`: the interactive `kill` command calls `exit(1)`.
`connClose`: the interactive `quit` command closes the descriptor. -/
inductive Outcome where
  | handled
  | warnDrop
  | panicLog
  | assertFail
  | killExit
  | connClose
deriving Repr, DecidableEq

/-- `sscanf(msg, "%20s %d", ...) < 2` test shared by `myid` and
`phase`. -/
def cmd_int_parse (msg : List Char) : Option Int :=
  (parseIntFrom (takeWord msg).2).map (fun x => x.1)

/-- `sscanf(msg, "%20s %d %d", ...) < 3` test of `allowsend`. -/
def cmd_two_int_parse (msg : List Char) : Option (Int × Int) :=
  match parseIntFrom (takeWord msg).2 with
  | none => none
  | some (a, rest) =>
    match parseIntFrom rest with
    | none => none
    | some (b, _) => some (a, b)

/-- `sscanf(msg, "%20s %50s %50s %d", ...) < 4` test of `register`:
location, host, port. -/
def reg_parse (msg : List Char) : Option (List Char × List Char × Int) :=
  let w1 := takeWord msg
  let w2 := takeWord w1.2
  let w3 := takeWord w2.2
  if w2.1 = [] ∨ w3.1 = [] then none
  else (parseIntFrom w3.2).map (fun x => (w2.1, w3.1, x.1))

/-- `sscanf(msg, "%20s %d %50s %50s %d", ...) < 5` test of `id`:
lid, location, host, port. -/
def id_parse (msg : List Char) : Option (Int × List Char × List Char × Int) :=
  match parseIntFrom (takeWord msg).2 with
  | none => none
  | some (lid, rest) =>
    let w1 := takeWord rest
    let w2 := takeWord w1.2
    if w1.1 = [] ∨ w2.1 = [] then none
    else (parseIntFrom w2.2).map (fun x => (lid, w1.1, w2.1, x.1))

/-- Outcome classification of `got_cmd(d, fd, msg, len)`, following the
source's dispatch on the first character of the line and the guard
conditions of every branch.  Replies sent from a branch (`send_cmd`)
are I/O and do not influence the outcome; `mylid`, `maxid` and the peer
table are the parts of `InstData` the guards and assertions read, `lid`
is `d->fds[fd].lid` and `mem` the mapped memory used by `got_data`.
An empty line has `msg[0] == 0` and matches no verb. -/
def got_cmd_class (mylid maxid : Int) (peer : Int → Peer) (lid : Int)
    (mem : Mem) (msg : List Char) : Outcome :=
  let c0 := msg.headD (Char.ofNat 0)
  if c0 = 'r' then
    if mylid ≠ 0 then .warnDrop        -- "ignoring register command ..., not master"
    else if 0 ≤ lid then .warnDrop     -- "cannot re-register; already registered ..."
    else match reg_parse msg with
      | none => .panicLog              -- "cannot parse register command"
      | some _ =>
        -- lid = ++maxid; assert(lid < MAX_PEERS); assert(peer[lid].port == -1);
        -- then the table is updated and id lines are sent
        if ¬ (maxid + 1 < 256) then .assertFail
        else if (peer (maxid + 1)).port ≠ -1 then .assertFail
        else .handled
  else if c0 = 'm' then
    match cmd_int_parse msg with
    | none => .panicLog                -- "cannot parse myid command"
    | some peerid =>
      if 0 ≤ lid then
        if lid ≠ peerid then .panicLog -- "got ID ... already known with locID ..."
        else .handled
      else if mylid = peerid then .panicLog -- "... which is my own location ID"
      else if ¬ (0 ≤ peerid ∧ peerid < 256) then .assertFail
      else if ¬ (peerid ≤ maxid) then .assertFail
      else if (peer peerid).location = none ∨ (peer peerid).host = none ∨
              (peer peerid).port < 0 then .assertFail
      else .handled
  else if c0 = 'h' then .handled       -- help text sent
  else if c0 = 'k' then .killExit      -- "Exiting because of kill command"
  else if c0 = 'q' then .connClose     -- "Closing connection because of quit command"
  else if c0 = '#' then .handled       -- comments accepted but ignored
  else if c0 = 's' then .handled       -- status output sent
  else if lid < 0 then .warnDrop       -- "ignoring command ... from unknown sender"
  else if c0 = 'i' then
    if mylid = 0 then .warnDrop        -- "ignoring id command ... as master"
    else match id_parse msg with
    | none => .panicLog                -- "cannot parse id command"
    | some (plid, l, h, prt) =>
      if ¬ (0 ≤ plid ∧ plid < 256) then .assertFail
      else if (peer plid).location ≠ none then
        -- already known: consistency asserts
        if ¬ (plid ≤ maxid) ∨ (peer plid).location ≠ some l ∨
           (peer plid).host ≠ some h ∨ (peer plid).port ≠ prt then .assertFail
        else .handled
      else .handled
  else if c0 = 'p' then
    if mylid = 0 then .warnDrop        -- "ignoring phase command ... as master"
    else match cmd_int_parse msg with
    | none => .panicLog                -- "cannot parse phase command"
    | some _ => .handled
  else if c0 = 'a' then
    match cmd_two_int_parse msg with
    | none => .panicLog                -- "cannot parse allowsend command"
    | some _ => if (peer lid).scount ≠ 0 then .assertFail else .handled
  else if c0 = 'd' then
    match got_data (peer lid) mem false msg with
    | .panicked => .panicLog
    | .assertFailed => .assertFail
    | .done true _ _ _ => .warnDrop    -- "ignoring data ... without send permission"
    | .done false _ _ _ => .handled
  else .warnDrop                       -- "TCP2 got from lID ... unknown msg"

/-! ## TCP2 backend: credit-based send and receive -/

/-- The payload of one `data` command emitted by `send_data`: the
`<len>` field (element byte count `s`), the position tag fields `n` and
`idx`, and the hex-dumped element bytes read from memory at `p`
(`%02x` of each `unsigned char`, hence the mod 256). -/
structure DataCmd where
  elemBytes : Int
  seq : Int
  idx : Laik_Index
  bytes : List Int
deriving Repr, DecidableEq

/-- `send_data(n, dims, idx, toLID, p, s)`: build one `data` command
for the element of size `s` at address `ptr`. -/
def send_data (n : Int) (idx : Laik_Index) (mem : Mem) (ptr : Int) (s : Int) : DataCmd :=
  { elemBytes := s
  , seq := n
  , idx := idx
  , bytes := (List.range s.toNat).map (fun j => mem (ptr + j) % 256) }

/-- The emission loop of `send_slice`: compute the layout offset of the
current index, emit one `data` command, advance with `next_lex`, stop
when the traversal is exhausted.  `fuel` bounds the recursion; for the
well-formed slices the theorems quantify over, `usize slc` steps are
exactly enough. -/
def send_elems (mem : Mem) (m : Laik_Mapping_tcp2) (slc : Laik_Slice) :
    Nat → Laik_Index → Int → List DataCmd
  | 0, _, _ => []
  | fuel + 1, idx, ecount =>
    let off := m.layoutOffset idx
    let ptr := m.start + off * m.elemsize
    let cmd := send_data ecount idx mem ptr m.elemsize
    match next_lex slc idx with
    | (true, idx2) => cmd :: send_elems mem m slc fuel idx2 (ecount + 1)
    | (false, _) => [cmd]

/-- The `data` command `send_slice` emits for the `k`-th element of the
slice. -/
def sendCmdAt (mem : Mem) (m : Laik_Mapping_tcp2) (slc : Laik_Slice) (k : Nat) : DataCmd :=
  let idx := unrank slc k
  send_data (k : Int) idx mem (m.start + m.layoutOffset idx * m.elemsize) m.elemsize

/-- The credit wait of `send_slice`: `while (p->scount == 0)
run_loop(d);`.  Each event-loop round may deliver one `allowsend
<count> <elemsize>` grant (other events do not change the send state);
`none` models a sender blocked forever because no grant arrives. -/
def await_scount (events : List (Int × Int)) (p : Peer) : Option Peer :=
  match events with
  | [] => if p.scount ≠ 0 then some p else none
  | (c, e) :: rest =>
    if p.scount ≠ 0 then some p
    else await_scount rest { p with scount := c, selemsize := e }

/-- `send_slice(fromMap, slc, toLID)`: wait for send credit, check the
grant against the slice (`assert(p->scount == laik_slice_size(slc))`,
`assert(p->selemsize == esize)`), emit one `data` command per element
in traversal order (`assert(ecount == laik_slice_size(slc))`), and
withdraw the right to send (`p->scount = 0`).  `p` is
`d->peer[toLID]`; `none` models an assertion failure or blocking
forever. -/
def send_slice (events : List (Int × Int)) (mem : Mem) (p : Peer)
    (m : Laik_Mapping_tcp2) (slc : Laik_Slice) : Option (Peer × List DataCmd) :=
  if m.start = 0 then none             -- assert(fromMap->start != 0)
  else match await_scount events p with
  | none => none
  | some p1 =>
    if p1.scount ≠ laik_slice_size slc then none
    else if p1.selemsize ≠ m.elemsize then none
    else
      let cmds := send_elems mem m slc (usize slc) slc.from_ 0
      if (cmds.length : Int) ≠ laik_slice_size slc then none
      else some ({ p1 with scount := 0 }, cmds)

/-- The receive-state setup of `recv_slice(slc, fromLID, toMap, ro)`:
`assert(toMap->start != 0)`, `assert(p->rcount == 0)`, then
`rcount = |slc|` (`assert(p->rcount > 0)`), `roff = 0`,
`relemsize = toMap->data->elemsize`, `rmap/rslc/ridx/rro` as given,
with `ridx` starting at `slc.from`.  The handler then sends
`allowsend rcount relemsize` and runs the event loop until
`roff == rcount`. -/
def recv_slice_start (slc : Laik_Slice) (m : Laik_Mapping_tcp2)
    (ro : Laik_ReductionOperation) (p : Peer) : Option Peer :=
  if m.start = 0 then none
  else if p.rcount ≠ 0 then none
  else if laik_slice_size slc ≤ 0 then none
  else some { p with
    rcount := laik_slice_size slc
    roff := 0
    relemsize := m.elemsize
    rmap := some m
    rslc := slc
    ridx := slc.from_
    rro := ro }

/-! ## TCP2 backend: connection management -/

/-- The per-descriptor state `d->fds[fd]` as far as the claims need it:
`none` models an unregistered descriptor (`cb == 0`). -/
structure FDState where
  lid : Int
  rbuf_used : Int
deriving Repr, DecidableEq

/-- The parts of `InstData` touched by connection management. -/
structure InstData where
  mylid : Int
  peer : Int → Peer
  fds : Int → Option FDState

/-- The `len == 0` branch of `got_bytes(d, fd)` for a descriptor whose
receive buffer is empty (no left-over command): the peer closed the
connection, so the descriptor is closed and removed from the event loop
(`close(fd); rm_rfd(d, fd)`).  Note that `d->peer[lid].fd` is NOT
touched by this branch. -/
def got_bytes_eof (d : InstData) (fd : Int) : InstData :=
  { d with fds := fun x => if x = fd then none else d.fds x }

/-- `ensure_conn(d, lid)`: return at once if `d->peer[lid].fd >= 0`
("connected"); otherwise resolve the recorded host and port, dial
(`dialfd` is the connect result, `none` = failure, which panics), hook
the new descriptor into the event loop, and announce `myid`.  The
returned flag tells whether a fresh connection was dialed. -/
def ensure_conn (dialfd : Option Int) (d : InstData) (lid : Int) :
    Option (InstData × Bool) :=
  if ¬ (lid < 256) then none                      -- assert(lid < MAX_PEERS)
  else if 0 ≤ (d.peer lid).fd then some (d, false)
  else if (d.peer lid).port < 0 then none         -- assert(d->peer[lid].port >= 0)
  else match dialfd with
  | none => none                                   -- Panic: cannot connect
  | some fd =>
    some ({ d with
            peer := fun x => if x = lid then { d.peer x with fd := fd } else d.peer x,
            fds := fun x => if x = fd then some { lid := lid, rbuf_used := 0 } else d.fds x },
          true)

/-! ## Data layer (early `data.c`): `copyMap`, `initMap`,
`laik_set_partitioning` -/

/-- Element values of a container.  Finite floating-point values are
modelled as exact rationals; the infinities arise when a double
constant is converted to `float` beyond its range. -/
inductive Val where
  | q (x : ℚ)
  | posInf
  | negInf
deriving Repr, DecidableEq

/-- The container element types distinguished by `initMap`
(`laik_Double`, `laik_Float`, anything else). -/
inductive Laik_TypeTag where
  | double
  | float
  | pod
deriving Repr, DecidableEq

/-- `Laik_AccessBehavior` values appearing in `t->initRedOp[i]`. -/
inductive Laik_AccessBehavior where
  | ab_Sum
  | ab_Prod
  | ab_Min
  | ab_Max
  | ab_Other
deriving Repr, DecidableEq

/-- A 1-d slice of this data layer (`s->from.i[0]`, `s->to.i[0]`;
`copyMap` and `initMap` assert `dims == 1`). -/
structure Laik_Slice1 where
  from_ : Int
  to_ : Int
deriving Repr, DecidableEq

/-- The transition lists consumed by `laik_set_partitioning`:
`t->local[0..localCount)` and `t->init[0..initCount)` with
`t->initRedOp[i]`.  The send/recv/red lists are handled by the backend
and are not part of the local copy/init path. -/
structure Laik_Transition1 where
  localList : List Laik_Slice1
  initList : List (Laik_Slice1 × Laik_AccessBehavior)

/-- A `Laik_Mapping` of the data layer: `m->baseIdx.i[0]`, `m->count`,
and `m->base` (null iff nothing was allocated).  Memory is
element-granular: `base o` is the element at local offset `o`. -/
structure Laik_Mapping1 where
  baseIdx : Int
  count : Int
  base : Option (Int → Val)

/-- The element-wise effect of one `memcpy(toPtr, fromPtr, count *
elemsize)`. -/
def memcpy_elems (toMem : Int → Val) (toStart : Int) (fromMem : Int → Val)
    (fromStart : Int) (count : Int) : Int → Val :=
  fun o => if toStart ≤ o ∧ o < toStart + count then fromMem (fromStart + (o - toStart))
           else toMem o

/-- One iteration of the `copyMap` loop for local slice `s`:
`count = s->to - s->from`, `fromStart = s->from - fromMap->baseIdx`,
`toStart = s->from - toMap->baseIdx`, `memcpy` if `count > 0`. -/
def copy_local (fromBaseIdx toBaseIdx : Int) (fromMem : Int → Val)
    (s : Laik_Slice1) (toMem : Int → Val) : Int → Val :=
  let count := s.to_ - s.from_
  let fromStart := s.from_ - fromBaseIdx
  let toStart := s.from_ - toBaseIdx
  if 0 < count then memcpy_elems toMem toStart fromMem fromStart count else toMem

/-- `copyMap(t, toMap, fromMap)`: copy every `local` slice of the
transition from the old into the new mapping.  `none` models a failed
assertion (`localCount > 0`; `fromMap->count == 0` whenever
`fromMap->base == 0`) or the undefined `memcpy` through a null
destination base. -/
def copyMap (t : Laik_Transition1) (toMap fromMap : Laik_Mapping1) :
    Option Laik_Mapping1 :=
  if t.localList.length = 0 then none
  else if toMap.count = 0 then some toMap
  else match fromMap.base with
  | none => if fromMap.count = 0 then some toMap else none
  | some fromMem =>
    match toMap.base with
    | none => none
    | some toMem =>
      some { toMap with base := some (t.localList.foldl
        (fun mem s => copy_local fromMap.baseIdx toMap.baseIdx fromMem s mem) toMem) }

/-- The value `initMap` writes for one init entry, by element type and
reduction op.  For `double`, the C literals are `0.0`, `1.0`, `9e99`
and `-9e99` (the comments say "should be largest/smallest double val");
the literal `9e99` rounds to the nearest double, a finite value within
one unit in the last place of 9·10^99 — it is modelled by the exact
rational 9·10^99, and every statement below depends only on it lying
far below `DBL_MAX`.  For `float` the same double constants are
converted to `float`; `9e99` exceeds the float range, so the stored
values are plus and minus infinity.  Any other op or element type hits
`assert(0)`. -/
def init_value (ty : Laik_TypeTag) (op : Laik_AccessBehavior) : Option Val :=
  match ty, op with
  | .double, .ab_Sum => some (.q 0)
  | .double, .ab_Prod => some (.q 1)
  | .double, .ab_Min => some (.q (9 * 10 ^ 99))
  | .double, .ab_Max => some (.q (-(9 * 10 ^ 99)))
  | .float, .ab_Sum => some (.q 0)
  | .float, .ab_Prod => some (.q 1)
  | .float, .ab_Min => some .posInf
  | .float, .ab_Max => some .negInf
  | _, _ => none

/-- One init entry: `for (j = s->from.i[0]; j < s->to.i[0]; j++)
dbase[j] = v;` — NOTE, faithful to the C: the GLOBAL index `j` is used
as the offset into the mapping memory, with no `baseIdx` adjustment
(contrast `copy_local`). -/
def write_init (mem : Int → Val) (s : Laik_Slice1) (v : Val) : Int → Val :=
  fun j => if s.from_ ≤ j ∧ j < s.to_ then v else mem j

/-- The loop of `initMap` over all init entries; `none` models
`assert(0)` on an unsupported op or element type. -/
def init_entries (ty : Laik_TypeTag) :
    List (Laik_Slice1 × Laik_AccessBehavior) → (Int → Val) → Option (Int → Val)
  | [], mem => some mem
  | (s, op) :: rest, mem =>
    match init_value ty op with
    | none => none
    | some v => init_entries ty rest (write_init mem s v)

/-- `initMap(t, toMap)`: value-initialize every init slice of the
transition (`assert(t->initCount > 0)`; nothing to do when the mapping
is empty). -/
def initMap (ty : Laik_TypeTag) (t : Laik_Transition1) (toMap : Laik_Mapping1) :
    Option Laik_Mapping1 :=
  if t.initList.length = 0 then none
  else if toMap.count = 0 then some toMap
  else match toMap.base with
  | none => none
  | some mem => (init_entries ty t.initList mem).map
      (fun mem2 => { toMap with base := some mem2 })

/-- `laik_set_partitioning(d, p)` from the point where the new mapping
`toMap` and the transition `t` exist: the backend executes the
transition's send/recv/reduce actions (`execT`, which may write into
the new mapping), then `copyMap` runs if `t->localCount > 0`, then
`initMap` if `t->initCount > 0`; finally the new mapping becomes
active.  `activeMapping` is the old mapping `d->activeMapping`. -/
def laik_set_partitioning (execT : Laik_Mapping1 → Laik_Mapping1)
    (ty : Laik_TypeTag) (t : Laik_Transition1)
    (activeMapping toMap : Laik_Mapping1) : Option Laik_Mapping1 :=
  let m1 := execT toMap
  (if 0 < t.localList.length then copyMap t m1 activeMapping else some m1).bind
    fun m2 => if 0 < t.initList.length then initMap ty t m2 else some m2

/-- The element of mapping `m` at local offset `o` (reading a mapping
with no storage yields a junk value). -/
def mapAt (m : Laik_Mapping1) (o : Int) : Val :=
  match m.base with
  | some f => f o
  | none => .q 0

/-! ## MPI backend: double-sweep schedule and transition plans -/

/-- `struct recvTOp` (the fields the schedule reads). -/
structure recvTOp where
  fromTask : Int
  sliceNo : Int
  mapNo : Int
deriving Repr, DecidableEq

/-- `struct sendTOp` (the fields the schedule reads). -/
structure sendTOp where
  toTask : Int
  sliceNo : Int
  mapNo : Int
deriving Repr, DecidableEq

/-- The peer rank serviced in a phase: `task = (phase < count) ? phase
: (2*count-phase-1)`. -/
def sweep_task (count phase : Int) : Int :=
  if phase < count then phase else 2 * count - phase - 1

/-- The receive filter of `laik_mpi_exec`'s phase loop: a receive
entry is serviced in a phase unless one of the three `continue`
conditions fires (`task != op->fromTask`;
`recvFromLower && myid < task`; `recvFromHigher && myid > task`). -/
def recv_serviced (count myid phase : Int) (op : recvTOp) : Bool :=
  let task := sweep_task count phase
  let recvFromLower := phase < count
  let recvFromHigher := count ≤ phase
  if task ≠ op.fromTask then false
  else if recvFromLower ∧ myid < task then false
  else if recvFromHigher ∧ task < myid then false
  else true

/-- The send filter of the phase loop (`task != op->toTask`;
`sendToLower && myid < task`; `sendToHigher && myid > task`). -/
def send_serviced (count myid phase : Int) (op : sendTOp) : Bool :=
  let task := sweep_task count phase
  let sendToHigher := phase < count
  let sendToLower := count ≤ phase
  if task ≠ op.toTask then false
  else if sendToLower ∧ myid < task then false
  else if sendToHigher ∧ task < myid then false
  else true

/-- One cross-process transfer performed by `laik_mpi_exec`, tagged
with the phase that performed it. -/
inductive MpiXfer where
  | recv (phase : Int) (op : recvTOp)
  | send (phase : Int) (op : sendTOp)
deriving Repr, DecidableEq

/-- The ordered list of cross-process transfers executed by
`laik_mpi_exec` for a transition with receive entries `recvs` and send
entries `sends`: `2 * count` phases, in each phase first the serviced
receives (in transition order), then the serviced sends. -/
def exec_transition_sweep (count myid : Int) (recvs : List recvTOp)
    (sends : List sendTOp) : List MpiXfer :=
  (List.range (2 * count).toNat).flatMap (fun ph =>
    (recvs.filter (fun op => recv_serviced count myid (ph : Int) op)).map
      (MpiXfer.recv (ph : Int))
    ++ (sends.filter (fun op => send_serviced count myid (ph : Int) op)).map
      (MpiXfer.send (ph : Int)))

/-- `Laik_TransitionPlan` buffer bookkeeping (the fields touched by
`laik_transplan_appendBuf`); `buf` holds the recorded allocation
results (`none` = a null pointer). -/
structure Laik_TransitionPlan where
  bufCount : Int
  bufAllocCount : Int
  buf : List (Option Int)
deriving Repr, DecidableEq

/-- `laik_transplan_appendBuf(tp, size)`: grow the pointer array if
full (`realloc`; a null result panics — `reallocOk` is the realloc
outcome), then `buf = malloc(size)` (`mallocResult`, `none` = a null
pointer), then — verbatim from the source — `if (buf) {
laik_panic("Out of memory ..."); exit(1); }`, and finally store the
pointer and return its index.  `none` models the panic. -/
def laik_transplan_appendBuf (reallocOk : Bool) (mallocResult : Option Int)
    (tp : Laik_TransitionPlan) : Option (Laik_TransitionPlan × Int) :=
  (if tp.bufCount = tp.bufAllocCount then
    (if reallocOk then some { tp with bufAllocCount := (tp.bufCount + 20) * 2 }
     else none)
   else some tp).bind fun tp1 =>
  match mallocResult with
  | some _ => none
  | none =>
    some ({ tp1 with buf := tp1.buf ++ [mallocResult], bufCount := tp1.bufCount + 1 },
          tp1.bufCount)

/-! ## Named concrete instances (used by witnesses and counterexamples) -/

/-- The character class accepted inside the hex payload of a `data`
command by the two assertions of the parse loop: decimal digits and
lower-case `a`-`f`. -/
def hexDigit (c : Char) : Prop := ('0' ≤ c ∧ c ≤ 'f') ∧ (c ≤ '9' ∨ 'a' ≤ c)

instance (c : Char) : Decidable (hexDigit c) := by
  unfold hexDigit; infer_instance

/-- An all-zero byte memory. -/
def memZero : Mem := fun _ => 0

/-- A 1-d slice [0,2). -/
def slcW1 : Laik_Slice := ⟨1, ⟨0, 0, 0⟩, ⟨2, 0, 0⟩⟩

/-- A 1-d slice [0,1). -/
def slcW1a : Laik_Slice := ⟨1, ⟨0, 0, 0⟩, ⟨1, 0, 0⟩⟩

/-- A 2-d slice [0,2) x [0,2). -/
def slcW2 : Laik_Slice := ⟨2, ⟨0, 0, 0⟩, ⟨2, 2, 0⟩⟩

/-- A concrete one-byte-element mapping with a 1-d dense layout. -/
def mapW : Laik_Mapping_tcp2 :=
  { start := 10, layoutOffset := fun idx => idx.i0, elemsize := 1, reduce := none }

/-- A peer with no outstanding transfers and no connection. -/
def peerIdle : Peer :=
  { fd := -1, port := -1, host := none, location := none,
    rcount := 0, relemsize := 0, roff := 0, rmap := none,
    rslc := slcW1, ridx := ⟨0, 0, 0⟩, rro := .ro_None,
    scount := 0, selemsize := 0 }

/-- A peer with one outstanding receive of a single 1-byte element
into `mapW` over the slice [0,1). -/
def peerRecvA : Peer :=
  { fd := 7, port := -1, host := none, location := none,
    rcount := 1, relemsize := 1, roff := 0, rmap := some mapW,
    rslc := slcW1a, ridx := ⟨0, 0, 0⟩, rro := .ro_None,
    scount := 0, selemsize := 0 }

/-- A peer table holding only idle peers. -/
def peerTableIdle : Int → Peer := fun _ => peerIdle

/-- A connected peer record for location-ID 1 at descriptor 5
(host and port recorded for re-dialing). -/
def peerConn5 : Peer :=
  { peerIdle with
    fd := 5
    port := 7777
    host := some ("h".toList)
    location := some ("l".toList) }

/-- An instance that is connected to peer 1 on descriptor 5. -/
def instC9 : InstData :=
  { mylid := 0
  , peer := fun i => if i = 1 then peerConn5 else peerIdle
  , fds := fun i => if i = 5 then some { lid := 1, rbuf_used := 0 } else none }

/-- `DBL_MAX`, the largest finite double, as an exact rational. -/
def dbl_max : ℚ := 2 ^ 1024 - 2 ^ 971

/-- The transition of the C1 scenario: one `local` slice [4,5) and one
`init` slice [3,4) with a Sum reduction intent. -/
def tC1 : Laik_Transition1 := { localList := [⟨4, 5⟩], initList := [(⟨3, 4⟩, .ab_Sum)] }

/-- The old mapping of the C1 scenario: it owns [4,8) (so `baseIdx`
is 4) and every element holds the value 7. -/
def fromC1 : Laik_Mapping1 := { baseIdx := 4, count := 4, base := some (fun _ => .q 7) }

/-- The new mapping of the C1 scenario: it owns [1,5) (so `baseIdx`
is 1), freshly allocated with junk contents. -/
def toC1 : Laik_Mapping1 := { baseIdx := 1, count := 4, base := some (fun _ => .q 99) }

/-- The transition of the C5 scenario: one `init` slice [0,2) with a
Min reduction intent. -/
def tC5 : Laik_Transition1 := { localList := [], initList := [(⟨0, 2⟩, .ab_Min)] }

/-- A double mapping owning [0,2) for the C5 scenario. -/
def mapC5 : Laik_Mapping1 := { baseIdx := 0, count := 2, base := some (fun _ => .q 5) }

/-- The peer record produced by `recv_slice_start` for a receive of
`slcW2` into `mapW` starting from `peerIdle`. -/
def peerRecvW2 : Peer :=
  { fd := -1, port := -1, host := none, location := none,
    rcount := 4, relemsize := 1, roff := 0, rmap := some mapW,
    rslc := slcW2, ridx := ⟨0, 0, 0⟩, rro := .ro_None,
    scount := 0, selemsize := 0 }

/-! ## Traversal lemmas -/

theorem sz0_pos (slc : Laik_Slice) (h : slcOK slc) : 0 < sz0 slc := by
  obtain ⟨-, h0, -, -⟩ := h
  unfold sz0; omega

theorem to0_eq (slc : Laik_Slice) (h : slcOK slc) :
    slc.to_.i0 = slc.from_.i0 + sz0 slc := by
  obtain ⟨-, h0, -, -⟩ := h
  unfold sz0; omega

theorem to1_eq (slc : Laik_Slice) (h : slcOK slc) (hd : 2 ≤ slc.dims) :
    slc.to_.i1 = slc.from_.i1 + sz1 slc := by
  have h1 := h.2.2.1 hd
  unfold sz1; rw [if_pos hd]; omega

theorem to2_eq (slc : Laik_Slice) (h : slcOK slc) (hd : slc.dims = 3) :
    slc.to_.i2 = slc.from_.i2 + sz2 slc := by
  have h2 := h.2.2.2 hd
  unfold sz2; rw [if_pos hd]; omega

theorem next_lex_q0 (slc : Laik_Slice) (h : slcOK slc) (q0 q1 q2 : Nat)
    (h0 : q0 + 1 < sz0 slc) :
    next_lex slc ⟨slc.from_.i0 + q0, slc.from_.i1 + q1, slc.from_.i2 + q2⟩
      = (true, ⟨slc.from_.i0 + (q0 + 1 : Nat), slc.from_.i1 + q1, slc.from_.i2 + q2⟩) := by
  have e0 := to0_eq slc h
  simp only [next_lex]
  rw [if_pos (by omega)]
  simp only [Prod.mk.injEq, Laik_Index.mk.injEq, true_and, and_true]
  omega

theorem next_lex_q1 (slc : Laik_Slice) (h : slcOK slc) (q0 q1 q2 : Nat)
    (h0 : q0 + 1 = sz0 slc) (h1 : q1 + 1 < sz1 slc) :
    next_lex slc ⟨slc.from_.i0 + q0, slc.from_.i1 + q1, slc.from_.i2 + q2⟩
      = (true, ⟨slc.from_.i0, slc.from_.i1 + (q1 + 1 : Nat), slc.from_.i2 + q2⟩) := by
  have e0 := to0_eq slc h
  rcases h.1 with hd | hd | hd
  · exfalso; unfold sz1 at h1; rw [if_neg (by omega)] at h1; omega
  all_goals
    have hd2 : 2 ≤ slc.dims := by omega
    have e1 := to1_eq slc h hd2
    simp only [next_lex]
    rw [if_neg (by omega), if_neg (by omega), if_pos (by omega)]
    simp only [Prod.mk.injEq, Laik_Index.mk.injEq, true_and, and_true]
    omega

theorem next_lex_q2 (slc : Laik_Slice) (h : slcOK slc) (q0 q1 q2 : Nat)
    (h0 : q0 + 1 = sz0 slc) (h1 : q1 + 1 = sz1 slc) (h2 : q2 + 1 < sz2 slc) :
    next_lex slc ⟨slc.from_.i0 + q0, slc.from_.i1 + q1, slc.from_.i2 + q2⟩
      = (true, ⟨slc.from_.i0, slc.from_.i1, slc.from_.i2 + (q2 + 1 : Nat)⟩) := by
  have e0 := to0_eq slc h
  have hd : slc.dims = 3 := by
    rcases h.1 with hd | hd | hd
    · exfalso; unfold sz2 at h2; rw [if_neg (by omega)] at h2; omega
    · exfalso; unfold sz2 at h2; rw [if_neg (by omega)] at h2; omega
    · exact hd
  have e1 := to1_eq slc h (by omega)
  have e2 := to2_eq slc h hd
  simp only [next_lex]
  rw [if_neg (by omega), if_neg (by omega), if_neg (by omega),
      if_neg (by omega), if_pos (by omega)]
  simp only [Prod.mk.injEq, Laik_Index.mk.injEq, true_and, and_true]
  omega

theorem next_lex_q_end (slc : Laik_Slice) (h : slcOK slc) (q0 q1 q2 : Nat)
    (h0 : q0 + 1 = sz0 slc) (h1 : q1 + 1 = sz1 slc) (h2 : q2 + 1 = sz2 slc) :
    next_lex slc ⟨slc.from_.i0 + q0, slc.from_.i1 + q1, slc.from_.i2 + q2⟩
      = (false, exhaustIdx slc) := by
  have e0 := to0_eq slc h
  rcases h.1 with hd | hd | hd
  · have s1 : sz1 slc = 1 := by unfold sz1; rw [if_neg (by omega)]
    have s2 : sz2 slc = 1 := by unfold sz2; rw [if_neg (by omega)]
    simp only [next_lex, exhaustIdx, hd]
    rw [if_neg (by omega), if_pos trivial]
    simp only [Prod.mk.injEq, Laik_Index.mk.injEq, true_and, and_true]
    omega
  · have s2 : sz2 slc = 1 := by unfold sz2; rw [if_neg (by omega)]
    have e1 := to1_eq slc h (by omega)
    simp only [next_lex, exhaustIdx, hd]
    rw [if_neg (by omega), if_neg (by omega),
        if_neg (by omega), if_pos trivial]
    simp only [Prod.mk.injEq, Laik_Index.mk.injEq, true_and, and_true]
    omega
  · have e1 := to1_eq slc h (by omega)
    have e2 := to2_eq slc h hd
    simp only [next_lex, exhaustIdx, hd]
    rw [if_neg (by omega), if_neg (by omega),
        if_neg (by omega), if_neg (by omega), if_neg (by omega)]
    simp only [Prod.mk.injEq, Laik_Index.mk.injEq, true_and, and_true]
    omega

theorem unrank_at (slc : Laik_Slice) (q0 q1 q2 : Nat)
    (h0 : q0 < sz0 slc) (h1 : q1 < sz1 slc) :
    unrank slc (q0 + sz0 slc * (q1 + sz1 slc * q2))
      = ⟨slc.from_.i0 + q0, slc.from_.i1 + q1, slc.from_.i2 + q2⟩ := by
  have p0 : 0 < sz0 slc := by omega
  have p1 : 0 < sz1 slc := by omega
  have m0 : (q0 + sz0 slc * (q1 + sz1 slc * q2)) % sz0 slc = q0 := by
    rw [Nat.add_mul_mod_self_left, Nat.mod_eq_of_lt h0]
  have d0 : (q0 + sz0 slc * (q1 + sz1 slc * q2)) / sz0 slc = q1 + sz1 slc * q2 := by
    rw [Nat.add_mul_div_left _ _ p0, Nat.div_eq_of_lt h0, Nat.zero_add]
  have m1 : (q1 + sz1 slc * q2) % sz1 slc = q1 := by
    rw [Nat.add_mul_mod_self_left, Nat.mod_eq_of_lt h1]
  have d1 : (q1 + sz1 slc * q2) / sz1 slc = q2 := by
    rw [Nat.add_mul_div_left _ _ p1, Nat.div_eq_of_lt h1, Nat.zero_add]
  unfold unrank
  rw [← Nat.div_div_eq_div_mul, m0, d0, m1, d1]

theorem rank_decomp (slc : Laik_Slice) (k : Nat) (hk : k < usize slc) :
    ∃ q0 q1 q2, q0 < sz0 slc ∧ q1 < sz1 slc ∧ q2 < sz2 slc ∧
      k = q0 + sz0 slc * (q1 + sz1 slc * q2) := by
  have p0 : 0 < sz0 slc := by
    rcases Nat.eq_zero_or_pos (sz0 slc) with hz | hp
    · exfalso; unfold usize at hk; rw [hz] at hk; simp at hk
    · exact hp
  have p1 : 0 < sz1 slc := by
    rcases Nat.eq_zero_or_pos (sz1 slc) with hz | hp
    · exfalso; unfold usize at hk; rw [hz] at hk; simp at hk
    · exact hp
  refine ⟨k % sz0 slc, k / sz0 slc % sz1 slc, k / (sz0 slc * sz1 slc),
    Nat.mod_lt _ p0, Nat.mod_lt _ p1, ?_, ?_⟩
  · rw [Nat.div_lt_iff_lt_mul (Nat.mul_pos p0 p1)]
    calc k < sz0 slc * sz1 slc * sz2 slc := hk
    _ = sz2 slc * (sz0 slc * sz1 slc) := by ring
  · have e1 : k / sz0 slc = k / sz0 slc % sz1 slc + sz1 slc * (k / (sz0 slc * sz1 slc)) := by
      rw [← Nat.div_div_eq_div_mul]
      exact (Nat.mod_add_div _ _).symm
    calc k = k % sz0 slc + sz0 slc * (k / sz0 slc) := (Nat.mod_add_div _ _).symm
    _ = k % sz0 slc + sz0 slc * (k / sz0 slc % sz1 slc + sz1 slc * (k / (sz0 slc * sz1 slc))) := by
      rw [← e1]

theorem mixed_radix_lt (a b c q0 q1 q2 : Nat) (h0 : q0 < a) (h1 : q1 < b) (h2 : q2 < c) :
    q0 + a * (q1 + b * q2) < a * b * c := by
  have hbc : q1 + b * q2 + 1 ≤ b * c := by
    calc q1 + b * q2 + 1 ≤ b * q2 + b := by omega
    _ = b * (q2 + 1) := by ring
    _ ≤ b * c := Nat.mul_le_mul_left _ (by omega)
  calc q0 + a * (q1 + b * q2) < a + a * (q1 + b * q2) := by omega
  _ = a * (q1 + b * q2 + 1) := by ring
  _ ≤ a * (b * c) := Nat.mul_le_mul_left _ hbc
  _ = a * b * c := by ring

theorem next_lex_unrank (slc : Laik_Slice) (h : slcOK slc) (k : Nat) (hk : k < usize slc) :
    next_lex slc (unrank slc k) =
      if k + 1 < usize slc then (true, unrank slc (k + 1))
      else (false, exhaustIdx slc) := by
  obtain ⟨q0, q1, q2, h0, h1, h2, hkeq⟩ := rank_decomp slc k hk
  have hu : unrank slc k = ⟨slc.from_.i0 + q0, slc.from_.i1 + q1, slc.from_.i2 + q2⟩ := by
    rw [hkeq]; exact unrank_at slc q0 q1 q2 h0 h1
  by_cases c0 : q0 + 1 < sz0 slc
  · have hlt := mixed_radix_lt (sz0 slc) (sz1 slc) (sz2 slc) (q0 + 1) q1 q2 c0 h1 h2
    have hk1 : k + 1 < usize slc := by unfold usize; omega
    rw [if_pos hk1, hu, next_lex_q0 slc h q0 q1 q2 c0]
    have he : k + 1 = (q0 + 1) + sz0 slc * (q1 + sz1 slc * q2) := by omega
    rw [he, unrank_at slc (q0 + 1) q1 q2 c0 h1]
  · have c0e : q0 + 1 = sz0 slc := by omega
    by_cases c1 : q1 + 1 < sz1 slc
    · have he : k + 1 = 0 + sz0 slc * ((q1 + 1) + sz1 slc * q2) := by
        rw [hkeq, ← c0e]; ring
      have hlt := mixed_radix_lt (sz0 slc) (sz1 slc) (sz2 slc) 0 (q1 + 1) q2
        (by omega) c1 h2
      have hk1 : k + 1 < usize slc := by unfold usize; omega
      rw [if_pos hk1, hu, next_lex_q1 slc h q0 q1 q2 c0e c1, he,
        unrank_at slc 0 (q1 + 1) q2 (by omega) c1]
      simp
    · have c1e : q1 + 1 = sz1 slc := by omega
      by_cases c2 : q2 + 1 < sz2 slc
      · have he : k + 1 = 0 + sz0 slc * (0 + sz1 slc * (q2 + 1)) := by
          rw [hkeq, ← c0e, ← c1e]; ring
        have hlt := mixed_radix_lt (sz0 slc) (sz1 slc) (sz2 slc) 0 0 (q2 + 1)
          (by omega) (by omega) c2
        have hk1 : k + 1 < usize slc := by unfold usize; omega
        rw [if_pos hk1, hu, next_lex_q2 slc h q0 q1 q2 c0e c1e c2, he,
          unrank_at slc 0 0 (q2 + 1) (by omega) (by omega)]
        simp
      · have c2e : q2 + 1 = sz2 slc := by omega
        have he : k + 1 = usize slc := by
          unfold usize; rw [hkeq, ← c0e, ← c1e, ← c2e]; ring
        rw [if_neg (by omega), hu, next_lex_q_end slc h q0 q1 q2 c0e c1e c2e]

theorem lexIter_unrank (slc : Laik_Slice) (h : slcOK slc) :
    ∀ k, k < usize slc → lexIter slc k = unrank slc k := by
  intro k
  induction k with
  | zero =>
    intro _
    show slc.from_ = unrank slc 0
    unfold unrank
    simp
  | succ k ih =>
    intro hk
    have hk0 : k < usize slc := by omega
    show (next_lex slc (lexIter slc k)).2 = unrank slc (k + 1)
    rw [ih hk0, next_lex_unrank slc h k hk0, if_pos hk]

theorem usize_pos (slc : Laik_Slice) (h : slcOK slc) : 0 < usize slc := by
  have p0 := sz0_pos slc h
  have p1 : 0 < sz1 slc := by
    unfold sz1
    by_cases hd : 2 ≤ slc.dims
    · rw [if_pos hd]; have := h.2.2.1 hd; omega
    · rw [if_neg hd]; omega
  have p2 : 0 < sz2 slc := by
    unfold sz2
    by_cases hd : slc.dims = 3
    · rw [if_pos hd]; have := h.2.2.2 hd; omega
    · rw [if_neg hd]; omega
  exact Nat.mul_pos (Nat.mul_pos p0 p1) p2

theorem laik_slice_size_eq (slc : Laik_Slice) (h : slcOK slc) :
    laik_slice_size slc = (usize slc : Int) := by
  obtain ⟨hd, h0, h1, h2⟩ := h
  have t0 : ((sz0 slc : Nat) : Int) = slc.to_.i0 - slc.from_.i0 := by
    unfold sz0; exact Int.toNat_of_nonneg (by omega)
  unfold usize
  rcases hd with hd | hd | hd
  · have s1 : sz1 slc = 1 := by unfold sz1; rw [if_neg (by omega)]
    have s2 : sz2 slc = 1 := by unfold sz2; rw [if_neg (by omega)]
    rw [s1, s2, Nat.mul_one, Nat.mul_one, t0]
    simp [laik_slice_size, hd]
  · have hi1 := h1 (by omega)
    have s2 : sz2 slc = 1 := by unfold sz2; rw [if_neg (by omega)]
    have t1 : ((sz1 slc : Nat) : Int) = slc.to_.i1 - slc.from_.i1 := by
      unfold sz1; rw [if_pos (by omega)]; exact Int.toNat_of_nonneg (by omega)
    rw [s2, Nat.mul_one, Nat.cast_mul, t0, t1]
    simp [laik_slice_size, hd]
  · have hi1 := h1 (by omega)
    have hi2 := h2 hd
    have t1 : ((sz1 slc : Nat) : Int) = slc.to_.i1 - slc.from_.i1 := by
      unfold sz1; rw [if_pos (by omega)]; exact Int.toNat_of_nonneg (by omega)
    have t2 : ((sz2 slc : Nat) : Int) = slc.to_.i2 - slc.from_.i2 := by
      unfold sz2; rw [if_pos hd]; exact Int.toNat_of_nonneg (by omega)
    rw [Nat.cast_mul, Nat.cast_mul, t0, t1, t2]
    simp [laik_slice_size, hd]

theorem next_lex_done_iff (slc : Laik_Slice) (h : slcOK slc) (k : Nat)
    (hk : k < usize slc) :
    (next_lex slc (lexIter slc k)).1 = true ↔ k + 1 < usize slc := by
  rw [lexIter_unrank slc h k hk, next_lex_unrank slc h k hk]
  by_cases hc : k + 1 < usize slc <;> simp [hc]

theorem lexIter_exhaust (slc : Laik_Slice) (h : slcOK slc) (k : Nat)
    (hk : k < usize slc) (hk1 : k + 1 = usize slc) :
    (next_lex slc (lexIter slc k)).2 = exhaustIdx slc := by
  rw [lexIter_unrank slc h k hk, next_lex_unrank slc h k hk, if_neg (by omega)]

theorem unrank_lexLt_succ (slc : Laik_Slice) (h : slcOK slc) (k : Nat)
    (hk : k + 1 < usize slc) :
    lexLt slc.dims (unrank slc k) (unrank slc (k + 1)) := by
  obtain ⟨q0, q1, q2, h0, h1, h2, hkeq⟩ := rank_decomp slc k (by omega)
  have hu : unrank slc k = ⟨slc.from_.i0 + q0, slc.from_.i1 + q1, slc.from_.i2 + q2⟩ := by
    rw [hkeq]; exact unrank_at slc q0 q1 q2 h0 h1
  by_cases c0 : q0 + 1 < sz0 slc
  · have he : k + 1 = (q0 + 1) + sz0 slc * (q1 + sz1 slc * q2) := by omega
    rw [hu, he, unrank_at slc (q0 + 1) q1 q2 c0 h1]
    unfold lexLt
    rcases h.1 with hd | hd | hd <;> simp [hd]
  · have c0e : q0 + 1 = sz0 slc := by omega
    by_cases c1 : q1 + 1 < sz1 slc
    · have he : k + 1 = 0 + sz0 slc * ((q1 + 1) + sz1 slc * q2) := by
        rw [hkeq, ← c0e]; ring
      rw [hu, he, unrank_at slc 0 (q1 + 1) q2 (by omega) c1]
      have hd2 : 2 ≤ slc.dims := by
        by_contra hcon
        have : sz1 slc = 1 := by unfold sz1; rw [if_neg hcon]
        omega
      unfold lexLt
      rcases h.1 with hd | hd | hd <;> (simp [hd]; try omega)
    · have c1e : q1 + 1 = sz1 slc := by omega
      have c2 : q2 + 1 < sz2 slc := by
        by_contra hcon
        have c2e : q2 + 1 = sz2 slc := by omega
        have : k + 1 = usize slc := by
          unfold usize; rw [hkeq, ← c0e, ← c1e, ← c2e]; ring
        omega
      have hd3 : slc.dims = 3 := by
        by_contra hcon
        have : sz2 slc = 1 := by unfold sz2; rw [if_neg hcon]
        omega
      have he : k + 1 = 0 + sz0 slc * (0 + sz1 slc * (q2 + 1)) := by
        rw [hkeq, ← c0e, ← c1e]; ring
      rw [hu, he, unrank_at slc 0 0 (q2 + 1) (by omega) (by omega)]
      unfold lexLt
      simp [hd3]

theorem send_elems_eq (mem : Mem) (m : Laik_Mapping_tcp2) (slc : Laik_Slice)
    (h : slcOK slc) :
    ∀ fuel k, k + fuel = usize slc → 0 < fuel →
      send_elems mem m slc fuel (unrank slc k) (k : Int)
        = (List.range' k fuel).map (sendCmdAt mem m slc) := by
  intro fuel
  induction fuel with
  | zero => intro k _ hpos; omega
  | succ f ih =>
    intro k hk _
    have hku : k < usize slc := by omega
    have hstep := next_lex_unrank slc h k hku
    rcases Nat.eq_zero_or_pos f with hf | hf
    · subst hf
      rw [if_neg (by omega)] at hstep
      simp only [send_elems, hstep]
      simp [List.range'_one, sendCmdAt]
    · rw [if_pos (by omega)] at hstep
      simp only [send_elems, hstep]
      have ih2 := ih (k + 1) (by omega) hf
      push_cast at ih2
      rw [ih2, List.range'_succ, List.map_cons]
      rfl

/-! ## `got_data` lemmas -/

theorem parse_hex_length (len : Int) :
    ∀ (cs : List Char) (acc : List Int) (v : Int) (bs : List Int),
      parse_hex len cs acc v = some bs → (bs.length : Int) = len := by
  intro cs
  induction cs with
  | nil =>
    intro acc v bs hp
    simp only [parse_hex] at hp
    split_ifs at hp with h1 h2
    · cases hp
      simp
      omega
  | cons c cs ih =>
    intro acc v bs hp
    simp only [parse_hex] at hp
    split_ifs at hp with h1 h2 h3 h4
    · cases hp
      simp
      omega
    · exact ih _ _ _ hp
    · exact ih _ _ _ hp

theorem parse_hex_bad_char (len : Int) (c : Char) (hc : ¬ hexDigit c) (hcs : c ≠ ' ') :
    ∀ (pre : List Char) (post : List Char) (acc : List Int) (v : Int),
      (∀ x ∈ pre, hexDigit x ∨ x = ' ') →
      (acc.length : Int) + (pre.count ' ' : Int) < len →
      parse_hex len (pre ++ c :: post) acc v = none := by
  intro pre
  induction pre with
  | nil =>
    intro post acc v _ hlt
    simp only [List.nil_append, parse_hex]
    rw [if_neg hcs,
      if_neg (show ¬ (('0' ≤ c ∧ c ≤ 'f') ∧ (c ≤ '9' ∨ 'a' ≤ c)) from hc)]
  | cons x xs ih =>
    intro post acc v hpre hlt
    by_cases hx : x = ' '
    · have hcnt : (x :: xs).count ' ' = xs.count ' ' + 1 := by
        simp [List.count_cons, hx]
      simp only [List.cons_append, parse_hex]
      rw [if_pos hx, if_pos (show (acc.length : Int) < len by omega),
        if_neg (show ¬ ((acc.length : Int) + 1 = len) by omega)]
      refine ih post (acc ++ [v % 256]) 0 ?_ ?_
      · intro y hy
        exact hpre y (List.mem_cons_of_mem _ hy)
      · simp only [List.length_append, List.length_singleton]
        push_cast
        omega
    · have hhx : hexDigit x := by
        rcases hpre x (List.mem_cons_self _ _) with h | h
        · exact h
        · exact absurd h hx
      have hcnt : (x :: xs).count ' ' = xs.count ' ' := by
        simp [List.count_cons, hx]
      simp only [List.cons_append, parse_hex]
      rw [if_neg hx,
        if_pos (show (('0' ≤ x ∧ x ≤ 'f') ∧ (x ≤ '9' ∨ 'a' ≤ x)) from hhx)]
      refine ih post acc _ ?_ ?_
      · intro y hy
        exact hpre y (List.mem_cons_of_mem _ hy)
      · omega

/-- The no-credit path of `got_data`: with a parseable command and no
outstanding credit, the handler logs a warning and returns with the
peer record, memory and exit flag untouched. -/
theorem got_data_drop_aux (p : Peer) (mem : Mem) (ex : Bool)
    (msg : List Char) (len : Int) (payload : List Char)
    (hp : data_cmd_parse msg = some (len, payload))
    (hr0 : 0 ≤ p.roff) (hr1 : p.roff ≤ p.rcount)
    (hnc : ¬ (0 < p.rcount ∧ p.roff < p.rcount)) :
    got_data p mem ex msg = .done true p mem ex := by
  simp only [got_data, hp]
  rw [if_pos (by omega)]

/-! ## Claim C2 -/

/-- C2: a received `data` command modifies memory or receive state only
when the receiver holds outstanding credit for the sending peer
(`rcount > 0` and `roff < rcount`); without credit the command is
logged at warning level and dropped, leaving the peer record, the
mapped memory and the event-loop exit flag unchanged.  (The command
must be parseable; an unparseable `data` line is handled separately —
see C7.)  The `roff` bounds are the invariant maintained by
`recv_slice`/`got_data`. -/
theorem got_data_requires_credit (p : Peer) (mem : Mem) (ex : Bool)
    (msg : List Char) (len : Int) (payload : List Char)
    (hp : data_cmd_parse msg = some (len, payload))
    (hr0 : 0 ≤ p.roff) (hr1 : p.roff ≤ p.rcount)
    (hnc : ¬ (0 < p.rcount ∧ p.roff < p.rcount)) :
    got_data p mem ex msg = .done true p mem ex :=
  got_data_drop_aux p mem ex msg len payload hp hr0 hr1 hnc

/-- Witness for C2: a `data` command arriving at an idle peer (no
outstanding receive) is dropped with everything unchanged. -/
theorem got_data_requires_credit_witness :
    got_data peerIdle memZero false ("data 8 01".toList)
      = .done true peerIdle memZero false :=
  got_data_requires_credit peerIdle memZero false ("data 8 01".toList) 8
    (" 01".toList |> skipSpaces) (by rfl) (by decide) (by decide) (by decide)

/-! ## Claim C10 -/

/-- C10 (amended): with outstanding credit, the data path accepts only
`data` commands carrying exactly one element whose byte length equals
the expected element size and is strictly less than 100: a length of
100 or more, a length different from `relemsize`, or a character
outside lower-case hexadecimal (and not a blank separator) that is
examined before the element's `len` bytes are complete all terminate
the receiver via assertion; characters after the final parsed element
byte are ignored. -/
theorem got_data_element_checks (p : Peer) (mem : Mem) (ex : Bool) (msg : List Char)
    (len : Int) (payload : List Char)
    (hp : data_cmd_parse msg = some (len, payload))
    (hcr : 0 < p.rcount ∧ p.roff < p.rcount) :
    (100 ≤ len → got_data p mem ex msg = .assertFailed) ∧
    (len ≠ p.relemsize → got_data p mem ex msg = .assertFailed) ∧
    (∀ p2 mem2 ex2, got_data p mem ex msg = .done false p2 mem2 ex2 →
       len = p.relemsize ∧ len < 100 ∧
       ∃ payload2 bs, stripTag (posStr p.roff p.rslc.dims p.ridx) payload = some payload2 ∧
         parse_hex len payload2 [] 0 = some bs ∧ (bs.length : Int) = len) ∧
    (∀ (pre post : List Char) (c : Char),
       stripTag (posStr p.roff p.rslc.dims p.ridx) payload = some (pre ++ c :: post) →
       (∀ x ∈ pre, hexDigit x ∨ x = ' ') →
       ((pre.count ' ' : Int) < len) →
       ¬ hexDigit c → c ≠ ' ' →
       got_data p mem ex msg = .assertFailed) := by
  have hnd : ¬ (p.rcount = 0 ∨ p.rcount = p.roff) := by omega
  refine ⟨?_, ?_, ?_, ?_⟩
  · intro h100
    simp only [got_data, hp]
    rw [if_neg hnd]
    by_cases hrel : p.relemsize ≠ len
    · rw [if_pos hrel]
    · rw [if_neg hrel]
      cases hm : p.rmap with
      | none => rfl
      | some m =>
        dsimp only
        cases hst : stripTag (posStr p.roff p.rslc.dims p.ridx) payload with
        | none => rfl
        | some payload2 =>
          dsimp only
          rw [if_pos (by omega)]
  · intro hne
    simp only [got_data, hp]
    rw [if_neg hnd, if_pos (by omega)]
  · intro p2 mem2 ex2 hdone
    simp only [got_data, hp] at hdone
    rw [if_neg hnd] at hdone
    by_cases hrel : p.relemsize ≠ len
    · rw [if_pos hrel] at hdone
      simp at hdone
    · rw [if_neg hrel] at hdone
      refine ⟨by omega, ?_, ?_⟩
      all_goals
        cases hm : p.rmap with
        | none => rw [hm] at hdone; simp at hdone
        | some m =>
          rw [hm] at hdone
          dsimp only at hdone
          cases hst : stripTag (posStr p.roff p.rslc.dims p.ridx) payload with
          | none => rw [hst] at hdone; simp at hdone
          | some payload2 =>
            rw [hst] at hdone
            dsimp only at hdone
            by_cases h100 : ¬ (len < 100)
            · rw [if_pos h100] at hdone; simp at hdone
            · rw [if_neg h100] at hdone
              first
              | omega
              | (cases hph : parse_hex len payload2 [] 0 with
                 | none => rw [hph] at hdone; simp at hdone
                 | some bs =>
                   exact ⟨payload2, bs, rfl, hph, parse_hex_length len _ _ _ _ hph⟩)
  · intro pre post c hst hpre hcount hc hcs
    simp only [got_data, hp]
    rw [if_neg hnd]
    by_cases hrel : p.relemsize ≠ len
    · rw [if_pos hrel]
    · rw [if_neg hrel]
      cases hm : p.rmap with
      | none => rfl
      | some m =>
        dsimp only
        rw [hst]
        dsimp only
        by_cases h100 : ¬ (len < 100)
        · rw [if_pos h100]
        · rw [if_neg h100]
          rw [parse_hex_bad_char len c hc hcs pre post [] 0 hpre (by simpa using hcount)]

/-! ## Claim C4 -/

theorem unrank_zero (slc : Laik_Slice) : unrank slc 0 = slc.from_ := by
  unfold unrank
  simp

/-- C4 (amended): for every non-empty slice of dimension 1, 2 or 3,
the receive traversal set up by `recv_slice` (`ridx` initialized to
`slc.from`, advanced by `next_lex` once per accepted element, with
`rcount = |slc|`) is exhausted after exactly `rcount` elements:
`next_lex` returns `false` iff `roff` has reached `rcount`.  For
1-dimensional slices the exhausted `ridx` then equals `slc.to` on axis
0; in higher dimensions the exhausted `ridx` instead has the lower
axes reset to `slc.from` and the last axis at its `to` bound (see the
counterexample). -/
theorem recv_traversal_exhausts (slc : Laik_Slice) (m : Laik_Mapping_tcp2)
    (ro : Laik_ReductionOperation) (p p2 : Peer)
    (h : slcOK slc)
    (hr : recv_slice_start slc m ro p = some p2) :
    p2.rcount = laik_slice_size slc ∧ p2.ridx = slc.from_ ∧ p2.rslc = slc ∧ p2.roff = 0 ∧
    (∀ n : Nat, (n : Int) < p2.rcount →
      ((next_lex slc (lexIter slc n)).1 = true ↔ (n : Int) + 1 < p2.rcount)) ∧
    (∀ n : Nat, (n : Int) + 1 = p2.rcount →
      (next_lex slc (lexIter slc n)).2 = exhaustIdx slc) ∧
    (slc.dims = 1 → ∀ n : Nat, (n : Int) + 1 = p2.rcount →
      (next_lex slc (lexIter slc n)).2.i0 = slc.to_.i0) := by
  unfold recv_slice_start at hr
  split_ifs at hr with h1 h2 h3
  cases hr
  have hsz := laik_slice_size_eq slc h
  refine ⟨rfl, rfl, rfl, rfl, ?_, ?_, ?_⟩
  · intro n hn
    have hn' : n < usize slc := by
      have hni : (n : Int) < laik_slice_size slc := hn
      omega
    rw [next_lex_done_iff slc h n hn']
    have e : laik_slice_size slc = ((usize slc : Nat) : Int) := hsz
    constructor
    · intro hlt
      show (n : Int) + 1 < laik_slice_size slc
      omega
    · intro hlt
      have : (n : Int) + 1 < laik_slice_size slc := hlt
      omega
  · intro n hn1
    have hn1' : (n : Int) + 1 = laik_slice_size slc := hn1
    have hn' : n < usize slc := by omega
    exact lexIter_exhaust slc h n hn' (by omega)
  · intro hd1 n hn1
    have hn1' : (n : Int) + 1 = laik_slice_size slc := hn1
    have hn' : n < usize slc := by omega
    rw [lexIter_exhaust slc h n hn' (by omega)]
    unfold exhaustIdx
    rw [hd1]

/-- C4 counterexample: the claim as frozen also says `ridx` reaches
`slc.to` exactly after `rcount` elements, but for the 2-d slice
[0,2) x [0,2) (`rcount = 4`) the `next_lex` call after the fourth
element returns `false` with the mutated `ridx = (0, 2)`, which is not
`slc.to = (2, 2)`. -/
theorem recv_traversal_counterexample :
    laik_slice_size slcW2 = 4 ∧
    (next_lex slcW2 (lexIter slcW2 3)).1 = false ∧
    (next_lex slcW2 (lexIter slcW2 3)).2 ≠ slcW2.to_ := by
  refine ⟨by decide, by decide, by decide⟩

/-- Witness for C4: the receive over the 2-d slice [0,2) x [0,2)
has `rcount = |slc| = 4`, and after 4 accepted elements (`roff =
rcount`) the traversal reports exhaustion. -/
theorem recv_traversal_exhausts_witness :
    peerRecvW2.rcount = laik_slice_size slcW2 ∧
    ((next_lex slcW2 (lexIter slcW2 3)).1 = true ↔ (3 : Int) + 1 < peerRecvW2.rcount) :=
  ⟨(recv_traversal_exhausts slcW2 mapW .ro_None peerIdle peerRecvW2 (by decide) (by rfl)).1,
   (recv_traversal_exhausts slcW2 mapW .ro_None peerIdle peerRecvW2 (by decide)
      (by rfl)).2.2.2.2.1 3 (by decide)⟩

/-! ## Claim C3 -/

/-- C3: `send_slice(fromMap, slc, toLID)` with no send credit
(`scount == 0`) blocks in the event loop until an `allowsend` grant
arrives — with no grant it never returns (`none`); once the matching
grant (`count = |slc|`, `elemsize` as the mapping's) is in, it emits
exactly `|slc|` `data` commands, one per element, visiting the slice
indices in lexicographic traversal order (the emitted command list is
exactly the elements at `unrank 0, 1, ...`, and consecutive commands
are strictly increasing in `lexLt`), and returns with `scount` reset
to 0. -/
theorem send_slice_emits_in_lex_order (mem : Mem) (p : Peer) (m : Laik_Mapping_tcp2)
    (slc : Laik_Slice) (h : slcOK slc) (hstart : m.start ≠ 0) (hs0 : p.scount = 0) :
    send_slice [] mem p m slc = none ∧
    ∃ p2 cmds,
      send_slice [(laik_slice_size slc, m.elemsize)] mem p m slc = some (p2, cmds) ∧
      p2.scount = 0 ∧
      cmds = (List.range' 0 (usize slc)).map (sendCmdAt mem m slc) ∧
      (cmds.length : Int) = laik_slice_size slc ∧
      List.Chain' (fun a b => lexLt slc.dims a.idx b.idx) cmds := by
  have hsz := laik_slice_size_eq slc h
  have hup := usize_pos slc h
  have hsgt : (0 : Int) < laik_slice_size slc := by omega
  constructor
  · have hw : await_scount [] p = none := by
      unfold await_scount
      rw [if_neg (not_not_intro hs0)]
    unfold send_slice
    rw [if_neg hstart, hw]
  · have hw : await_scount [(laik_slice_size slc, m.elemsize)] p
        = some { p with scount := laik_slice_size slc, selemsize := m.elemsize } := by
      simp only [await_scount]
      rw [if_neg (not_not_intro hs0)]
      dsimp only
      rw [if_pos (by omega)]
    have hcmds := send_elems_eq mem m slc h (usize slc) 0 (by omega) hup
    rw [unrank_zero] at hcmds
    push_cast at hcmds
    have hlen : (((List.range' 0 (usize slc)).map (sendCmdAt mem m slc)).length : Int)
        = laik_slice_size slc := by
      rw [List.length_map, List.length_range']
      omega
    refine ⟨{ p with scount := 0, selemsize := m.elemsize },
            (List.range' 0 (usize slc)).map (sendCmdAt mem m slc), ?_, rfl, rfl, hlen, ?_⟩
    · unfold send_slice
      rw [if_neg hstart, hw]
      dsimp only
      rw [if_neg (not_not_intro rfl), if_neg (not_not_intro rfl), hcmds,
        if_neg (not_not_intro hlen)]
    · rw [← List.range_eq_range']
      refine (List.chain'_map _).2 ?_
      cases hu : usize slc with
      | zero => simp
      | succ n =>
        rw [List.chain'_range_succ]
        intro k hk
        exact unrank_lexLt_succ slc h k (by omega)

/-- Witness for C3: a sender with no credit over the 2-d slice
[0,2) x [0,2) blocks forever without a grant, and completes once the
matching `allowsend 4 1` grant arrives. -/
theorem send_slice_emits_witness :
    send_slice [] memZero peerIdle mapW slcW2 = none ∧
    (send_slice [(laik_slice_size slcW2, mapW.elemsize)] memZero peerIdle mapW slcW2).isSome
      = true := by
  obtain ⟨h1, p2, cmds, h2, -⟩ :=
    send_slice_emits_in_lex_order memZero peerIdle mapW slcW2 (by decide) (by decide) rfl
  exact ⟨h1, by rw [h2]; rfl⟩

/-! ## Claim C6 -/

theorem recv_serviced_iff (count myid phase : Int) (op : recvTOp) :
    recv_serviced count myid phase op = true ↔
      (sweep_task count phase = op.fromTask ∧
       ¬ (phase < count ∧ myid < sweep_task count phase) ∧
       ¬ (count ≤ phase ∧ sweep_task count phase < myid)) := by
  simp only [recv_serviced]
  split_ifs with h1 h2 h3 <;> simp_all

theorem send_serviced_iff (count myid phase : Int) (op : sendTOp) :
    send_serviced count myid phase op = true ↔
      (sweep_task count phase = op.toTask ∧
       ¬ (count ≤ phase ∧ myid < sweep_task count phase) ∧
       ¬ (phase < count ∧ sweep_task count phase < myid)) := by
  simp only [send_serviced]
  split_ifs with h1 h2 h3 <;> simp_all

/-- C6: the MPI backend executes cross-process transfers in `2N`
phases (`N` = group size): in phase `p < N` the process services a
receive entry with peer `p` exactly when `p` is lower than its own
rank, and a send entry with peer `p` exactly when `p` is higher; in
phases `p ≥ N` the serviced peer is `2N - p - 1` with the polarity
flipped (receive from a higher rank, send to a lower rank).  The
assertions `myid != op->fromTask` / `myid != op->toTask` in the loop
are the hypotheses on the entries. -/
theorem mpi_exec_double_sweep (count myid : Int) (recvs : List recvTOp)
    (sends : List sendTOp) (r : recvTOp) (s : sendTOp) (phase : Int)
    (hr : r.fromTask ≠ myid) (hs : s.toTask ≠ myid) :
    (MpiXfer.recv phase r ∈ exec_transition_sweep count myid recvs sends ↔
      (r ∈ recvs ∧ 0 ≤ phase ∧ phase < 2 * count ∧
        ((phase < count ∧ r.fromTask = phase ∧ phase < myid) ∨
         (count ≤ phase ∧ r.fromTask = 2 * count - phase - 1 ∧ myid < r.fromTask)))) ∧
    (MpiXfer.send phase s ∈ exec_transition_sweep count myid recvs sends ↔
      (s ∈ sends ∧ 0 ≤ phase ∧ phase < 2 * count ∧
        ((phase < count ∧ s.toTask = phase ∧ myid < phase) ∨
         (count ≤ phase ∧ s.toTask = 2 * count - phase - 1 ∧ s.toTask < myid)))) := by
  have ht : ∀ ph : Int, sweep_task count ph
      = if ph < count then ph else 2 * count - ph - 1 := fun _ => rfl
  constructor
  · constructor
    · intro hmem
      simp only [exec_transition_sweep, List.mem_flatMap, List.mem_append, List.mem_map,
        List.mem_filter, List.mem_range] at hmem
      obtain ⟨n, hn, hcase⟩ := hmem
      rcases hcase with ⟨op, ⟨hop, hserv⟩, heq⟩ | ⟨op, ⟨hop, hserv⟩, heq⟩
      · injection heq with hph hopr
        subst hph
        subst hopr
        rw [recv_serviced_iff] at hserv
        obtain ⟨he, hn1, hn2⟩ := hserv
        rw [ht] at he hn1 hn2
        by_cases hpc : (n : Int) < count
        · rw [if_pos hpc] at he hn1 hn2
          exact ⟨hop, by omega, by omega, by omega⟩
        · rw [if_neg hpc] at he hn1 hn2
          exact ⟨hop, by omega, by omega, by omega⟩
      · exact absurd heq (by simp)
    · rintro ⟨hop, h0, h2c, hcase⟩
      have hcast : ((phase.toNat : Nat) : Int) = phase := Int.toNat_of_nonneg h0
      simp only [exec_transition_sweep, List.mem_flatMap, List.mem_append, List.mem_map,
        List.mem_filter, List.mem_range]
      refine ⟨phase.toNat, by omega, Or.inl ⟨r, ⟨hop, ?_⟩, by rw [hcast]⟩⟩
      rw [recv_serviced_iff, ht, hcast]
      by_cases hpc : phase < count
      · rw [if_pos hpc]; omega
      · rw [if_neg hpc]; omega
  · constructor
    · intro hmem
      simp only [exec_transition_sweep, List.mem_flatMap, List.mem_append, List.mem_map,
        List.mem_filter, List.mem_range] at hmem
      obtain ⟨n, hn, hcase⟩ := hmem
      rcases hcase with ⟨op, ⟨hop, hserv⟩, heq⟩ | ⟨op, ⟨hop, hserv⟩, heq⟩
      · exact absurd heq (by simp)
      · injection heq with hph hopr
        subst hph
        subst hopr
        rw [send_serviced_iff] at hserv
        obtain ⟨he, hn1, hn2⟩ := hserv
        rw [ht] at he hn1 hn2
        by_cases hpc : (n : Int) < count
        · rw [if_pos hpc] at he hn1 hn2
          exact ⟨hop, by omega, by omega, by omega⟩
        · rw [if_neg hpc] at he hn1 hn2
          exact ⟨hop, by omega, by omega, by omega⟩
    · rintro ⟨hop, h0, h2c, hcase⟩
      have hcast : ((phase.toNat : Nat) : Int) = phase := Int.toNat_of_nonneg h0
      simp only [exec_transition_sweep, List.mem_flatMap, List.mem_append, List.mem_map,
        List.mem_filter, List.mem_range]
      refine ⟨phase.toNat, by omega, Or.inr ⟨s, ⟨hop, ?_⟩, by rw [hcast]⟩⟩
      rw [send_serviced_iff, ht, hcast]
      by_cases hpc : phase < count
      · rw [if_pos hpc]; omega
      · rw [if_neg hpc]; omega

/-- Witness for C6: with 2 processes, rank 0 services its receive from
rank 1 in phase 2 (the flipped sweep, peer `2N - p - 1 = 1`, a higher
rank). -/
theorem mpi_exec_double_sweep_witness :
    MpiXfer.recv 2 ⟨1, 0, 0⟩ ∈ exec_transition_sweep 2 0 [⟨1, 0, 0⟩] [] :=
  (mpi_exec_double_sweep 2 0 [⟨1, 0, 0⟩] [] ⟨1, 0, 0⟩ ⟨9, 0, 0⟩ 2 (by decide)
      (by decide)).1.mpr
    ⟨by decide, by decide, by decide, Or.inr ⟨by decide, by decide, by decide⟩⟩

/-- C10 counterexample: the claim as frozen says any received `data`
command with a payload character outside lower-case hexadecimal makes
the receiver terminate via assertion; but characters after the
element's final byte are never examined.  The command `data 1 ab Z`
(element length 1, byte `ab`, then the non-hex character `Z`) is
accepted by a receiver with outstanding credit: the handler returns
normally instead of asserting. -/
theorem got_data_trailing_junk_accepted :
    ¬ hexDigit 'Z' ∧ 'Z' ∈ ("data 1 ab Z".toList) ∧
    ∃ p2 mem2 ex2, got_data peerRecvA memZero false ("data 1 ab Z".toList)
      = .done false p2 mem2 ex2 :=
  ⟨by decide, by decide, _, _, _, rfl⟩

/-- Witness for C10: with outstanding credit for one 1-byte element,
an oversized length field (`data 100 ...`) and a length different from
the expected element size (`data 2 ...`) both end in an assertion
failure. -/
theorem got_data_element_checks_witness :
    got_data peerRecvA memZero false ("data 100 ab".toList) = .assertFailed ∧
    got_data peerRecvA memZero false ("data 2 abcd".toList) = .assertFailed :=
  ⟨(got_data_element_checks peerRecvA memZero false ("data 100 ab".toList) 100
      ("ab".toList) (by rfl) (by decide)).1 (by decide),
   ((got_data_element_checks peerRecvA memZero false ("data 2 abcd".toList) 2
      ("abcd".toList) (by rfl) (by decide)).2).1 (by decide)⟩

/-! ## Claim C7 -/

/-- C7 (amended): the point-to-point backend's protocol errors split in
two classes.  An unknown verb from a registered peer, a `data` command
without credit, and a re-registration are logged at warning level and
dropped with the connection left open.  A malformed argument line of a
known verb, however, is logged at `LAIK_LL_Panic` level, which
terminates the process (shown for `allowsend`; the `register`, `myid`,
`id`, `phase` and `data` parsers panic the same way). -/
theorem got_cmd_protocol_errors (mylid maxid : Int) (peer : Int → Peer) (lid : Int)
    (mem : Mem) (msg : List Char) :
    (0 ≤ lid →
      (∀ c ∈ ['r', 'm', 'h', 'k', 'q', '#', 's', 'i', 'p', 'a', 'd'],
        msg.headD (Char.ofNat 0) ≠ c) →
      got_cmd_class mylid maxid peer lid mem msg = .warnDrop) ∧
    (0 ≤ lid → msg.headD (Char.ofNat 0) = 'd' →
      ∀ len payload, data_cmd_parse msg = some (len, payload) →
      0 ≤ (peer lid).roff → (peer lid).roff ≤ (peer lid).rcount →
      ¬ (0 < (peer lid).rcount ∧ (peer lid).roff < (peer lid).rcount) →
      got_cmd_class mylid maxid peer lid mem msg = .warnDrop) ∧
    (0 ≤ lid → msg.headD (Char.ofNat 0) = 'r' → mylid = 0 →
      got_cmd_class mylid maxid peer lid mem msg = .warnDrop) ∧
    (0 ≤ lid → msg.headD (Char.ofNat 0) = 'a' → cmd_two_int_parse msg = none →
      got_cmd_class mylid maxid peer lid mem msg = .panicLog) := by
  refine ⟨?_, ?_, ?_, ?_⟩
  · intro hlid hcs
    simp only [got_cmd_class]
    rw [if_neg (hcs 'r' (by decide)), if_neg (hcs 'm' (by decide)),
        if_neg (hcs 'h' (by decide)), if_neg (hcs 'k' (by decide)),
        if_neg (hcs 'q' (by decide)), if_neg (hcs '#' (by decide)),
        if_neg (hcs 's' (by decide)), if_neg (by omega : ¬ lid < 0),
        if_neg (hcs 'i' (by decide)), if_neg (hcs 'p' (by decide)),
        if_neg (hcs 'a' (by decide)), if_neg (hcs 'd' (by decide))]
  · intro hlid hd len payload hp h0 h1 hnc
    simp only [got_cmd_class]
    rw [if_neg (by rw [hd]; decide), if_neg (by rw [hd]; decide),
        if_neg (by rw [hd]; decide), if_neg (by rw [hd]; decide),
        if_neg (by rw [hd]; decide), if_neg (by rw [hd]; decide),
        if_neg (by rw [hd]; decide), if_neg (by omega : ¬ lid < 0),
        if_neg (by rw [hd]; decide), if_neg (by rw [hd]; decide),
        if_neg (by rw [hd]; decide), if_pos hd,
        got_data_drop_aux (peer lid) mem false msg len payload hp h0 h1 hnc]
  · intro hlid hr hm
    simp only [got_cmd_class]
    rw [if_pos hr, if_neg (by omega : ¬ mylid ≠ 0), if_pos hlid]
  · intro hlid ha hpf
    simp only [got_cmd_class]
    rw [if_neg (by rw [ha]; decide), if_neg (by rw [ha]; decide),
        if_neg (by rw [ha]; decide), if_neg (by rw [ha]; decide),
        if_neg (by rw [ha]; decide), if_neg (by rw [ha]; decide),
        if_neg (by rw [ha]; decide), if_neg (by omega : ¬ lid < 0),
        if_neg (by rw [ha]; decide), if_neg (by rw [ha]; decide),
        if_pos ha, hpf]

/-- C7 counterexample: the claim as frozen says every protocol error —
including a malformed command line — is logged at warning level with
the process surviving; but a registered peer sending the malformed
line `allowsend 3` (missing the element size) makes `got_cmd` log at
`LAIK_LL_Panic` level, terminating the process. -/
theorem got_cmd_malformed_panics :
    got_cmd_class 1 5 peerTableIdle 2 memZero ("allowsend 3".toList) = .panicLog ∧
    Outcome.panicLog ≠ Outcome.warnDrop := by
  exact ⟨by decide, by decide⟩

/-- Witness for C7: an unknown verb (`xyz`) from a registered peer is
dropped with a warning, and a malformed `allowsend` line is a
Panic-level event. -/
theorem got_cmd_protocol_errors_witness :
    got_cmd_class 1 5 peerTableIdle 2 memZero ("xyz".toList) = .warnDrop ∧
    got_cmd_class 1 5 peerTableIdle 2 memZero ("allowsend".toList) = .panicLog :=
  ⟨(got_cmd_protocol_errors 1 5 peerTableIdle 2 memZero ("xyz".toList)).1
      (by decide) (by decide),
   (got_cmd_protocol_errors 1 5 peerTableIdle 2 memZero ("allowsend".toList)).2.2.2
      (by decide) (by decide) (by decide)⟩

/-! ## Claim C1 -/

/-- C1 (code bug): after `laik_set_partitioning`, an index present in
both partitionings is supposed to keep its pre-transition value, and
`copyMap` does copy it; but `initMap` then writes through the GLOBAL
index (`dbase[j]`) with no `baseIdx` adjustment, so with
`toMap.baseIdx = 1` an init entry over [3,4) lands on local offset 3 —
the slot of global index 4, which the local slice [4,5) had just
preserved.  Concretely: the old mapping holds 7 at global index 4, and
after the switch the new mapping holds the Sum identity 0 there
instead of 7. -/
theorem set_partitioning_init_clobbers_local :
    (laik_set_partitioning id .double tC1 fromC1 toC1).map (fun m2 => mapAt m2 3)
      = some (Val.q 0) ∧
    (laik_set_partitioning id .double { tC1 with initList := [] } fromC1 toC1).map
      (fun m2 => mapAt m2 3) = some (Val.q 7) ∧
    mapAt fromC1 (4 - fromC1.baseIdx) = Val.q 7 ∧
    Val.q 0 ≠ Val.q 7 :=
  ⟨rfl, rfl, rfl, by decide⟩

/-! ## Claim C5 -/

/-- C5 (code bug): for a `double` container, `initMap` initializes a
Min-reduction init slice with the literal `9e99` (the code's own
comment says "should be largest double val"), not with the maximum
double value `DBL_MAX = 2^1024 - 2^971`; the literal lies far below
it.  (For `float`, the same `9e99` literal even converts to plus
infinity rather than `FLT_MAX`.) -/
theorem initMap_min_writes_9e99 :
    (initMap .double tC5 mapC5).map (fun m2 => mapAt m2 0) = some (Val.q (9 * 10 ^ 99)) ∧
    Val.q (9 * 10 ^ 99) ≠ Val.q dbl_max ∧
    (9 * 10 ^ 99 : ℚ) < dbl_max :=
  ⟨rfl, by simp only [ne_eq, Val.q.injEq]; norm_num [dbl_max],
   by norm_num [dbl_max]⟩

/-! ## Claim C8 -/

/-- C8 (code bug): `laik_transplan_appendBuf` tests `if (buf)` instead
of `if (!buf)` after `buf = malloc(size)`: a SUCCESSFUL allocation
panics with "Out of memory", while a failed allocation (null pointer)
is stored in the plan and its index returned. -/
theorem appendBuf_panics_on_success :
    laik_transplan_appendBuf true (some 1000) ⟨0, 0, []⟩ = none ∧
    laik_transplan_appendBuf true none ⟨0, 0, []⟩ = some (⟨1, 40, [none]⟩, 0) :=
  ⟨rfl, rfl⟩

/-! ## Claim C9 -/

/-- C9 (code bug): after a peer connection drops with end-of-file, the
peer-table entry does survive — but because the EOF branch of
`got_bytes` never resets `d->peer[lid].fd` (contrast the `quit`
handler), the entry still records the closed descriptor, so
`ensure_conn` sees the peer as connected and returns WITHOUT dialing a
fresh connection; the next `send_cmd` writes into the dead descriptor
instead of re-dialing. -/
theorem conn_drop_no_redial :
    ((got_bytes_eof instC9 5).peer 1).fd = 5 ∧
    (got_bytes_eof instC9 5).fds 5 = none ∧
    (got_bytes_eof instC9 5).peer 1 = instC9.peer 1 ∧
    ensure_conn (some 9) (got_bytes_eof instC9 5) 1 = some (got_bytes_eof instC9 5, false) :=
  ⟨rfl, rfl, rfl, rfl⟩
